import Mathlib

/-!
Verification of the acetylene image-burning library (`src/lib.rs`).

The development shallowly embeds the two central operations of the crate:

* `device_path` — resolution of a user-supplied identifier to a canonical
  device path (filesystem canonicalization is abstracted as a function
  `String → Option String`, `none` meaning the path does not canonicalize);
* `burn_image` — the buffered copy-and-hash loop that streams an image to a
  device while emitting `Progress` events on a channel.

Rust `unwrap`/`expect` calls are modelled explicitly: a result of
`Except.error ()` (for `device_path`) or an `Outcome.panicked` field (for
`burn_image`) means the Rust code panics at that point.  The outside world
(stat results, open results, read outcomes, short writes, sync failures,
channel closure) is a `World` value, so a run of `burn_image` is a pure
function of its configuration and the world.

SHA-256 is implemented in full (the crate delegates to the `sha2` crate,
whose streaming API hashes the concatenation of all `input` calls; the
hasher state is therefore modelled as the list of bytes fed so far, and the
digest as `sha256` of that list).
-/

namespace Acetylene

/-! ## SHA-256 -/

/-- Truncate to a 32-bit word. -/
def w32 (n : Nat) : Nat := n % 4294967296

/-- 32-bit modular addition. -/
def add32 (a b : Nat) : Nat := (a + b) % 4294967296

/-- 32-bit right rotation (argument assumed `< 2^32`). -/
def rotRight (n x : Nat) : Nat := ((x >>> n) ||| (x <<< (32 - n))) % 4294967296

/-- Logical right shift. -/
def shr (n x : Nat) : Nat := x >>> n

/-- Bitwise complement within 32 bits. -/
def not32 (x : Nat) : Nat := x ^^^ 4294967295

def choose (x y z : Nat) : Nat := (x &&& y) ^^^ (not32 x &&& z)

def majority (x y z : Nat) : Nat := (x &&& y) ^^^ (x &&& z) ^^^ (y &&& z)

def sigBig0 (x : Nat) : Nat := rotRight 2 x ^^^ rotRight 13 x ^^^ rotRight 22 x

def sigBig1 (x : Nat) : Nat := rotRight 6 x ^^^ rotRight 11 x ^^^ rotRight 25 x

def sigSm0 (x : Nat) : Nat := rotRight 7 x ^^^ rotRight 18 x ^^^ shr 3 x

def sigSm1 (x : Nat) : Nat := rotRight 17 x ^^^ rotRight 19 x ^^^ shr 10 x

/-- The 64 SHA-256 round constants. -/
def sha256K : List Nat :=
  [1116352408, 1899447441, 3049323471, 3921009573,
   961987163, 1508970993, 2453635748, 2870763221,
   3624381080, 310598401, 607225278, 1426881987,
   1925078388, 2162078206, 2614888103, 3248222580,
   3835390401, 4022224774, 264347078, 604807628,
   770255983, 1249150122, 1555081692, 1996064986,
   2554220882, 2821834349, 2952996808, 3210313671,
   3336571891, 3584528711, 113926993, 338241895,
   666307205, 773529912, 1294757372, 1396182291,
   1695183700, 1986661051, 2177026350, 2456956037,
   2730485921, 2820302411, 3259730800, 3345764771,
   3516065817, 3600352804, 4094571909, 275423344,
   430227734, 506948616, 659060556, 883997877,
   958139571, 1322822218, 1537002063, 1747873779,
   1955562222, 2024104815, 2227730452, 2361852424,
   2428436474, 2756734187, 3204031479, 3329325298]

/-- Working state of the SHA-256 compression function. -/
structure Hs where
  a : Nat
  b : Nat
  c : Nat
  d : Nat
  e : Nat
  f : Nat
  g : Nat
  h : Nat
deriving Repr, DecidableEq

/-- Initial SHA-256 hash value. -/
def sha256H0 : Hs :=
  ⟨1779033703, 3144134277, 1013904242, 2773480762,
   1359893119, 2600822924, 528734635, 1541459225⟩

/-- One round of the compression function with round constant `k` and
    schedule word `w`. -/
def sha256Round (s : Hs) (k : Nat) (w : Nat) : Hs :=
  let t1 := add32 s.h (add32 (sigBig1 s.e) (add32 (choose s.e s.f s.g) (add32 k w)))
  let t2 := add32 (sigBig0 s.a) (majority s.a s.b s.c)
  ⟨add32 t1 t2, s.a, s.b, s.c, add32 s.d t1, s.e, s.f, s.g⟩

/-- Append one extended message-schedule word. -/
def schedStep (ws : List Nat) : List Nat :=
  let n := ws.length
  ws ++ [add32 (add32 (sigSm1 (ws.getD (n - 2) 0)) (ws.getD (n - 7) 0))
               (add32 (sigSm0 (ws.getD (n - 15) 0)) (ws.getD (n - 16) 0))]

/-- Iterate `schedStep` `k` times. -/
def buildSched (ws : List Nat) : Nat → List Nat
  | 0 => ws
  | k + 1 => schedStep (buildSched ws k)

/-- Run the 64 rounds pairing constants with schedule words. -/
def sha256Rounds (s : Hs) : List Nat → List Nat → Hs
  | k :: ks, w :: wsRest => sha256Rounds (sha256Round s k w) ks wsRest
  | _, _ => s

/-- Compress one 16-word block into the running hash value. -/
def sha256Compress (s : Hs) (block : List Nat) : Hs :=
  let ws := buildSched block 48
  let t := sha256Rounds s sha256K ws
  ⟨add32 s.a t.a, add32 s.b t.b, add32 s.c t.c, add32 s.d t.d,
   add32 s.e t.e, add32 s.f t.f, add32 s.g t.g, add32 s.h t.h⟩

/-- Big-endian bytes (most significant first) of `n`, `k` bytes wide. -/
def natToBytesBE : Nat → Nat → List Nat
  | 0, _ => []
  | k + 1, n => natToBytesBE k (n / 256) ++ [n % 256]

/-- Group bytes into big-endian 32-bit words. -/
def bytesToWords : List Nat → List Nat
  | b0 :: b1 :: b2 :: b3 :: rest =>
      (((b0 * 256 + b1) * 256 + b2) * 256 + b3) :: bytesToWords rest
  | _ => []

/-- SHA-256 padding: append `0x80`, zeros, and the 64-bit big-endian bit
    length, reaching a multiple of 64 bytes. -/
def sha256Pad (msg : List Nat) : List Nat :=
  let l := msg.length
  msg ++ [0x80] ++ List.replicate ((119 - l % 64) % 64) 0 ++
    natToBytesBE 8 (8 * l)

/-- Split a byte list into 64-byte blocks of 16 words each. -/
def toBlocks : List Nat → List (List Nat)
  | [] => []
  | b :: bs => bytesToWords ((b :: bs).take 64) :: toBlocks ((b :: bs).drop 64)
termination_by l => l.length
decreasing_by simp [List.length_drop]; omega

/-- Serialize a hash state as 32 big-endian bytes. -/
def hsToBytes (s : Hs) : List Nat :=
  natToBytesBE 4 s.a ++ natToBytesBE 4 s.b ++ natToBytesBE 4 s.c ++
  natToBytesBE 4 s.d ++ natToBytesBE 4 s.e ++ natToBytesBE 4 s.f ++
  natToBytesBE 4 s.g ++ natToBytesBE 4 s.h

/-- SHA-256 of a byte sequence (bytes as `Nat`s below 256). -/
def sha256 (msg : List Nat) : List Nat :=
  hsToBytes ((toBlocks (sha256Pad msg)).foldl sha256Compress sha256H0)

theorem natToBytesBE_length (k n : Nat) : (natToBytesBE k n).length = k := by
  induction k generalizing n with
  | zero => rfl
  | succ k ih => simp [natToBytesBE, ih]

/-- The SHA-256 digest is always 32 bytes long. -/
theorem sha256_length (msg : List Nat) : (sha256 msg).length = 32 := by
  simp [sha256, hsToBytes, natToBytesBE_length]

/-! ## Device catalog (`Device`, `device_path`) -/

/-- Device representation (`struct Device` in `lib.rs`): convenient name,
    canonical path, size in mebibytes. -/
structure Device where
  name : String
  path : String
  mbytes : Nat
deriving Repr, DecidableEq

/-- First loop of `device_path`: scan for a device whose `name` equals the
    input, returning its `path`. -/
def findByName : List Device → String → Option String
  | [], _ => none
  | d :: rest, input => if input = d.name then some d.path else findByName rest input

/-- Second loop of `device_path`: scan for a device whose `path` equals the
    canonicalized input, returning that path. -/
def findByPath : List Device → String → Option String
  | [], _ => none
  | d :: rest, p => if p = d.path then some p else findByPath rest p

/-- Embedding of `device_path`.  `can` abstracts
    `Path::new(input).canonicalize()`: `none` means canonicalization fails
    (nonexistent path), in which case the Rust code calls `.unwrap()` on an
    `Err` and panics — modelled as `Except.error ()`.  `Except.ok none` is
    the Rust `None` return ("no such device"). -/
def device_path (can : String → Option String) (devices : List Device)
    (input : String) : Except Unit (Option String) :=
  if input = "/tmp/plop.img" then
    Except.ok (some input)
  else
    match findByName devices input with
    | some p => Except.ok (some p)
    | none =>
      match can input with
      | none => Except.error ()
      | some path =>
        match findByPath devices path with
        | some p => Except.ok (some p)
        | none => Except.ok none

/-- Resolution procedure as the spec words it (§4.1): sentinel first, then
    first name match via `List.find?`, then canonicalize and look for a path
    match via `List.any`. -/
def device_path_spec (can : String → Option String) (devices : List Device)
    (input : String) : Except Unit (Option String) :=
  if input = "/tmp/plop.img" then
    Except.ok (some input)
  else
    match devices.find? (fun d => d.name = input) with
    | some d => Except.ok (some d.path)
    | none =>
      match can input with
      | none => Except.error ()
      | some path =>
        if devices.any (fun d => d.path = path) then Except.ok (some path)
        else Except.ok none

theorem findByName_eq_find (devices : List Device) (input : String) :
    findByName devices input = (devices.find? (fun d => d.name = input)).map Device.path := by
  induction devices with
  | nil => rfl
  | cons d rest ih =>
      by_cases h : input = d.name
      · simp [findByName, List.find?, h]
      · have h' : ¬d.name = input := fun hc => h hc.symm
        simp [findByName, List.find?, h, h', ih]

theorem findByPath_any (devices : List Device) (p : String) :
    findByPath devices p = if devices.any (fun d => d.path = p) then some p else none := by
  induction devices with
  | nil => rfl
  | cons d rest ih =>
      by_cases h : p = d.path
      · simp [findByPath, List.any, h]
      · have h' : ¬d.path = p := fun hc => h hc.symm
        simp [findByPath, List.any, h, h', ih]

/-! ## Burn engine (`BurnSetting`, `BurnConfig`, `Progress`, `burn_image`)

The engine interacts with the outside world through fallible operations:
`metadata` (stat), `File::open`, `OpenOptions::open`, `Read::read`,
`Write::write`, `sync_data`, and `Sender::send`.  A `World` records the
outcome of each of those calls, so a run is a pure function.  Fidelity
notes, keyed to `lib.rs`:

* `metadata(..).unwrap()`, `File::open(..).expect(..)`,
  `OpenOptions.. .expect(..)`, `write(..).unwrap()`, `sync_data().unwrap()`
  and `tx.send(..).unwrap()` all panic on failure: the run's outcome is
  then `Outcome.panicked` and no further events are emitted.
* `Read::read` returns `Ok(0)` (end of file), `Ok(n)` with the `n` bytes
  read, or `Err`; a `Step.read` with an empty chunk is the `Ok(0)` case.
* `Write::write` may perform a short write: it returns `Ok(k)` with
  `k ≤ n`, and `lib.rs` discards `k`.  `Step.read`'s `wRes` is that result
  (`none` = `Err`), and the bytes that actually reach the device are
  `data.take k`.
* The channel may close at any point: `sendCap = some c` means the first
  `c` sends succeed and every later send fails (`sendCap = none`: the
  consumer never disconnects).
-/

inductive BurnSetting where
  | Verify
deriving Repr, DecidableEq

structure BurnConfig where
  device : String
  image : String
  settings : List BurnSetting

/-- Progress events (`enum Progress` in `lib.rs`). -/
inductive Progress where
  | Start (total : Nat)
  | Progress (count : Nat) (total : Nat)
  | End (digest : Option (List Nat))
  | Error
deriving Repr, DecidableEq

/-- Outcome of one loop iteration's `image.read(..)` call, together with the
    outcomes of the write and sync calls of the same iteration. -/
inductive Step where
  | read (data : List Nat) (wRes : Option Nat) (syncOk : Bool)
  | readErr
deriving Repr, DecidableEq

/-- Environment of one `burn_image` run. -/
structure World where
  /-- Result of `metadata(config.image).len()`; `none` = stat failure (panic). -/
  statResult : Option Nat
  /-- Whether `File::open(config.image)` succeeds. -/
  imageOpens : Bool
  /-- Whether opening the device for writing succeeds. -/
  deviceOpens : Bool
  /-- Number of channel sends that succeed before the consumer closes. -/
  sendCap : Option Nat
  /-- Successive outcomes of the read loop. -/
  steps : List Step
deriving Repr, DecidableEq

/-- Whether send number `k` (0-indexed) succeeds. -/
def sendOk (cap : Option Nat) (k : Nat) : Bool :=
  match cap with
  | none => true
  | some c => k < c

/-- How a modelled run ends. -/
inductive Outcome where
  /-- The loop hit `break` after sending `End` or `Error`. -/
  | normal
  /-- Some `unwrap`/`expect` failed: the thread panics. -/
  | panicked
  /-- The `World` supplied fewer read outcomes than the loop consumes; the
      real loop would keep issuing reads. -/
  | exhausted
deriving Repr, DecidableEq

/-- Observable result of a run: events actually delivered on the channel,
    chunks of bytes that reached the device (in write order), bytes fed to
    the hasher, and how the run ended. -/
structure RunResult where
  events : List Progress
  written : List (List Nat)
  hashed : List Nat
  outcome : Outcome
deriving Repr, DecidableEq

/-- The `loop { match image.read(..) .. }` body of `burn_image`.  `count`,
    `hashed` and `sent` thread the mutable state (`count`, the hasher's
    accumulated input, and the number of sends performed so far). -/
def burnLoop (verify : Bool) (total : Nat) (cap : Option Nat) :
    List Step → Nat → List Nat → Nat → RunResult
  | [], _, hashed, _ => ⟨[], [], hashed, Outcome.exhausted⟩
  | Step.readErr :: _, _, hashed, sent =>
      if sendOk cap sent then ⟨[Progress.Error], [], hashed, Outcome.normal⟩
      else ⟨[], [], hashed, Outcome.panicked⟩
  | Step.read data wRes syncRes :: rest, count, hashed, sent =>
      if data.isEmpty then
        let digest := if verify then some (sha256 hashed) else none
        if sendOk cap sent then ⟨[Progress.End digest], [], hashed, Outcome.normal⟩
        else ⟨[], [], hashed, Outcome.panicked⟩
      else
        let count' := count + data.length
        let hashed' := if verify then hashed ++ data else hashed
        match wRes with
        | none => ⟨[], [], hashed', Outcome.panicked⟩
        | some k =>
          let piece := data.take k
          if !syncRes then ⟨[], [piece], hashed', Outcome.panicked⟩
          else if sendOk cap sent then
            let r := burnLoop verify total cap rest count' hashed' (sent + 1)
            ⟨Progress.Progress count' total :: r.events, piece :: r.written,
             r.hashed, r.outcome⟩
          else ⟨[], [piece], hashed', Outcome.panicked⟩

/-- Embedding of `burn_image`.  Mirrors `lib.rs` lines 132–183: stat the
    image, open image and device (each failure panics), send `Start{total}`,
    then run the read/write loop. -/
def burn_image (config : BurnConfig) (w : World) : RunResult :=
  match w.statResult with
  | none => ⟨[], [], [], Outcome.panicked⟩
  | some total =>
    if !w.imageOpens then ⟨[], [], [], Outcome.panicked⟩
    else if !w.deviceOpens then ⟨[], [], [], Outcome.panicked⟩
    else
      let verify := config.settings.contains BurnSetting.Verify
      if sendOk w.sendCap 0 then
        let r := burnLoop verify total w.sendCap w.steps 0 [] 1
        ⟨Progress.Start total :: r.events, r.written, r.hashed, r.outcome⟩
      else ⟨[], [], [], Outcome.panicked⟩

/-! ## Claims about `device_path` -/

theorem findByName_append_first (pre : List Device) (d : Device) (post : List Device)
    (input : String) (hpre : ∀ d' ∈ pre, d'.name ≠ input) (hd : d.name = input) :
    findByName (pre ++ d :: post) input = some d.path := by
  induction pre with
  | nil => simp [findByName, hd]
  | cons p rest ih =>
      have hp : p.name ≠ input := hpre p (List.mem_cons_self p rest)
      have h' : input ≠ p.name := fun hc => hp hc.symm
      simp only [List.cons_append, findByName, if_neg h']
      exact ih fun d' hm => hpre d' (List.mem_cons_of_mem p hm)

/-- C6: `device_path` resolves in the spec's precedence order — the sentinel
    path `/tmp/plop.img` is returned unchanged; otherwise the first device
    whose `name` equals the input yields its `path`; otherwise the input is
    canonicalized and compared against the devices' `path`s, yielding that
    path on a match and `None` otherwise.  Stated as: the embedded code
    equals `device_path_spec`, the resolution procedure written from the
    spec's words, for every canonicalization function, catalog, and input.
    (The code never mutates the catalog: `device_path` is a pure function of
    `devices`.) -/
theorem C6_device_path_precedence (can : String → Option String)
    (devices : List Device) (input : String) :
    device_path can devices input = device_path_spec can devices input := by
  by_cases hs : input = "/tmp/plop.img"
  · simp [device_path, device_path_spec, hs]
  · simp only [device_path, device_path_spec, if_neg hs, findByName_eq_find]
    cases devices.find? (fun d => d.name = input) with
    | some d => rfl
    | none =>
      simp only [Option.map_none']
      cases can input with
      | none => rfl
      | some p =>
        simp only [findByPath_any]
        by_cases hp : devices.any (fun d => d.path = p)
        · simp [hp]
        · simp [hp]

/-- C7: the claim says that on an input naming a nonexistent filesystem path
    (not the sentinel, not a device name) `device_path` returns absence or a
    recoverable error rather than panicking.  The code instead calls
    `Path::new(input).canonicalize().unwrap()` (lib.rs line 56), which
    panics when canonicalization fails.  This theorem evaluates the
    embedding at such an input: the result is `Except.error ()`, the model's
    representation of that panic, not `Except.ok` of anything. -/
theorem C7_canonicalize_panics :
    device_path (fun _ => none) [⟨"sd1", "/dev/x", 1⟩] "/dev/unknown"
      = Except.error () := rfl

/-- C10: with duplicate names in the catalog, the first matching device (in
    list order) wins: if no device of `pre` is named `input` and `d` is,
    `device_path` on `pre ++ d :: post` returns `d`'s path, whatever `post`
    contains — including further devices named `input`. -/
theorem C10_first_name_match_wins (can : String → Option String)
    (pre : List Device) (d : Device) (post : List Device) (input : String)
    (hpre : ∀ d' ∈ pre, d'.name ≠ input) (hd : d.name = input)
    (hs : input ≠ "/tmp/plop.img") :
    device_path can (pre ++ d :: post) input = Except.ok (some d.path) := by
  simp [device_path, if_neg hs, findByName_append_first pre d post input hpre hd]

theorem C10_witness :
    device_path (fun _ => none)
      [⟨"sd", "/dev/sda", 1⟩, ⟨"sd", "/dev/sdb", 2⟩] "sd"
      = Except.ok (some "/dev/sda") :=
  C10_first_name_match_wins (fun _ => none) [] ⟨"sd", "/dev/sda", 1⟩
    [⟨"sd", "/dev/sdb", 2⟩] "sd" (by simp) rfl (by decide)

/-! ## Event-sequence predicates -/

/-- The constant `BUFFER4MB` from `lib.rs`: the read buffer size, an upper bound on every
    chunk returned by `image.read`. -/
def BUFFER4MB : Nat := 4 * 1024 * 1024

def isProg : Progress → Bool
  | Progress.Progress _ _ => true
  | _ => false

def isTerminal : Progress → Bool
  | Progress.End _ => true
  | Progress.Error => true
  | _ => false

/-- Zero or more `Progress` events followed by exactly one terminal event. -/
def goodTail : List Progress → Bool
  | [] => false
  | [e] => isTerminal e
  | e :: rest => isProg e && goodTail rest

/-- One `Start` first, then zero or more `Progress`, then one terminal
    event: the spec's event-protocol invariant. -/
def goodShape : List Progress → Bool
  | Progress.Start _ :: rest => goodTail rest
  | _ => false

/-- Shape of the event sequence of an aborted (panicked) run: either nothing
    was delivered, or a `Start` followed only by `Progress` events — no
    terminal event. -/
def prefixShape : List Progress → Bool
  | [] => true
  | Progress.Start _ :: rest => rest.all isProg
  | _ => false

/-- The `count` fields of the `Progress` events, in order. -/
def countsOf : List Progress → List Nat
  | [] => []
  | Progress.Progress c _ :: rest => c :: countsOf rest
  | _ :: rest => countsOf rest

/-- The list is non-decreasing. -/
def nonDecr : List Nat → Bool
  | [] => true
  | [_] => true
  | a :: b :: rest => decide (a ≤ b) && nonDecr (b :: rest)

/-- The read outcomes `steps` are one faithful traversal of a fixed image
    with byte content `content`: successive non-empty chunks of at most
    `BUFFER4MB` bytes whose concatenation is `content`, then an `Ok(0)`
    end-of-file read.  (Write results, sync results and later steps are
    unconstrained.) -/
def isImageTrace : List Step → List Nat → Bool
  | Step.read data _ _ :: rest, content =>
      if data.isEmpty then content.isEmpty
      else decide (data.length ≤ BUFFER4MB) && decide (content.take data.length = data)
             && isImageTrace rest (content.drop data.length)
  | _, _ => false

/-! ## Shape of the emitted event sequence -/

theorem goodTail_cons_prog (c t : Nat) (es : List Progress) (h : goodTail es = true) :
    goodTail (Progress.Progress c t :: es) = true := by
  cases es with
  | nil => simp [goodTail] at h
  | cons e es' => simp [goodTail, isProg, h]

/-- The loop body emits: zero or more `Progress` then one terminal event if
    it ends normally, and only `Progress` events if it panics or the model
    runs out of read outcomes. -/
theorem burnLoop_shape (verify : Bool) (total : Nat) (cap : Option Nat)
    (steps : List Step) :
    ∀ (count : Nat) (hashed : List Nat) (sent : Nat),
    ((burnLoop verify total cap steps count hashed sent).outcome = Outcome.normal →
      goodTail (burnLoop verify total cap steps count hashed sent).events = true) ∧
    ((burnLoop verify total cap steps count hashed sent).outcome ≠ Outcome.normal →
      (burnLoop verify total cap steps count hashed sent).events.all isProg = true) := by
  induction steps with
  | nil => intro count hashed sent; simp [burnLoop]
  | cons s rest ih =>
    intro count hashed sent
    cases s with
    | readErr =>
        by_cases hs : sendOk cap sent
        · simp [burnLoop, hs, goodTail, isTerminal]
        · simp [burnLoop, hs]
    | read data wRes syncRes =>
        by_cases hd : data.isEmpty
        · by_cases hs : sendOk cap sent
          · simp [burnLoop, hd, hs, goodTail, isTerminal]
          · simp [burnLoop, hd, hs]
        · cases wRes with
          | none => simp [burnLoop, hd]
          | some k =>
            by_cases hsy : syncRes
            · by_cases hs : sendOk cap sent
              · have ih' := ih (count + data.length)
                  (if verify then hashed ++ data else hashed) (sent + 1)
                simp only [burnLoop, hd, hsy, hs, Bool.not_true, if_false, if_true,
                  Bool.false_eq_true, ite_false, ite_true] at ih' ⊢
                constructor
                · intro hn
                  exact goodTail_cons_prog _ _ _ (ih'.1 hn)
                · intro hn
                  simp [List.all_cons, isProg, ih'.2 hn]
              · simp [burnLoop, hd, hsy, hs]
            · simp [burnLoop, hd, hsy]

/-- C1 (amended): a run of `burn_image` that terminates normally emits
    exactly one `Start` first, then zero or more `Progress` events, then
    exactly one terminal event (`End` or `Error`) with nothing after it; a
    run aborted by a panic (failed stat/open/write/sync/send) emits either
    nothing or a `Start` followed only by `Progress` events — in particular
    it never emits two terminal events and never emits after a terminal
    event. -/
theorem C1_event_protocol (config : BurnConfig) (w : World) :
    ((burn_image config w).outcome = Outcome.normal →
      goodShape (burn_image config w).events = true) ∧
    ((burn_image config w).outcome ≠ Outcome.normal →
      prefixShape (burn_image config w).events = true) := by
  cases hstat : w.statResult with
  | none => simp [burn_image, hstat, prefixShape]
  | some total =>
    by_cases hio : w.imageOpens
    · by_cases hdo : w.deviceOpens
      · by_cases hs : sendOk w.sendCap 0
        · have h := burnLoop_shape (config.settings.contains BurnSetting.Verify)
            total w.sendCap w.steps 0 [] 1
          simp only [burn_image, hstat, hio, hdo, hs, Bool.not_true, if_true,
            Bool.false_eq_true, ite_false, ite_true] at h ⊢
          constructor
          · intro hn
            simp only [goodShape]
            exact h.1 hn
          · intro hn
            simp only [prefixShape]
            exact h.2 hn
        · simp [burn_image, hstat, hio, hdo, hs, prefixShape]
      · simp [burn_image, hstat, hio, hdo, prefixShape]
    · simp [burn_image, hstat, hio, prefixShape]

/-! ## Concrete runs exhibiting the panic paths of `burn_image` -/

/-- A configuration without verification. -/
def cfg0 : BurnConfig := ⟨"/dev/sda", "image.img", []⟩

/-- A configuration with verification requested. -/
def cfgVerify : BurnConfig := ⟨"/dev/sda", "image.img", [BurnSetting.Verify]⟩

/-- A 2-byte image whose first chunk's `device.write` returns `Err`. -/
def wWriteFail : World := ⟨some 2, true, true, none, [Step.read [0, 1] none true]⟩

/-- A world where `metadata(config.image)` fails (the image does not exist). -/
def wStatFail : World := ⟨none, true, true, none, []⟩

/-- A 2-byte image read in one chunk, but `device.write` reports a short
    write of 1 byte; everything else succeeds. -/
def wShortWrite : World :=
  ⟨some 2, true, true, none, [Step.read [0, 1] (some 1) true, Step.read [] none true]⟩

/-- The consumer's channel endpoint is closed before any send. -/
def wClosed : World := ⟨some 2, true, true, some 0, [Step.read [0, 1] (some 2) true]⟩

/-- C1 (counterexample): the claim as stated — every run that emits any
    events ends with exactly one terminal event — fails on the code: when
    `device.write` returns `Err`, line 168's `.unwrap()` panics after
    `Start` was already sent, so the delivered sequence `[Start 2]` is
    non-empty yet contains no terminal event. -/
theorem C1_counterexample :
    (burn_image cfg0 wWriteFail).events ≠ [] ∧
    goodShape (burn_image cfg0 wWriteFail).events = false := by decide

/-- C8: the claim says every stat/open/read/write/sync failure is surfaced
    exclusively as an `Error` event and the engine never panics.  The code
    only routes *read* errors to `Error`; stat failure panics via
    `metadata(..).unwrap()` (line 133) before any event, and a write failure
    panics via `write(..).unwrap()` (line 168) with no `Error` event ever
    delivered.  Both divergences evaluated concretely. -/
theorem C8_failures_panic_without_error_event :
    burn_image cfg0 wStatFail = ⟨[], [], [], Outcome.panicked⟩ ∧
    (burn_image cfg0 wWriteFail).outcome = Outcome.panicked ∧
    Progress.Error ∉ (burn_image cfg0 wWriteFail).events := by decide

/-- C9: the claim says that when the consumer closes its endpoint before the
    terminal event, the engine observes the send failure and stops early
    without panicking.  The code calls `tx.send(..).unwrap()` at every send
    site (lines 144, 155, 171, 177), so the first failed send panics the
    engine thread.  Concretely: with the channel closed from the start, the
    run panics, delivers nothing, and writes nothing. -/
theorem C9_closed_channel_panics :
    (burn_image cfg0 wClosed).outcome = Outcome.panicked ∧
    (burn_image cfg0 wClosed).events = [] ∧
    (burn_image cfg0 wClosed).written = [] := by decide

/-- C3: the claim says a normally completing run leaves the destination's
    first N bytes byte-identical to the N-byte source because each iteration
    writes exactly the bytes just read.  The code calls `device.write`
    (line 168), which under `std::io::Write`'s contract may write fewer
    bytes than requested, and discards the returned count instead of
    retrying (`write_all`).  Concretely: a 2-byte image whose single write
    reports 1 byte written completes *normally* (`End` delivered, no error),
    yet only 1 byte reached the device. -/
theorem C3_short_write_loses_bytes :
    isImageTrace wShortWrite.steps [0, 1] = true ∧
    (burn_image cfg0 wShortWrite).outcome = Outcome.normal ∧
    (burn_image cfg0 wShortWrite).events.getLast? = some (Progress.End none) ∧
    (burn_image cfg0 wShortWrite).written.flatten = [0] := by decide

/-! ## Digest, count, and head lemmas for the loop -/

theorem getLast?_cons_of_getLast? {α : Type} (a x : α) (l : List α)
    (h : l.getLast? = some x) : (a :: l).getLast? = some x := by
  cases l with
  | nil => simp at h
  | cons b l' => rw [List.getLast?_cons_cons]; exact h

theorem getLast?_getD_cons (c x : Nat) (l : List Nat) :
    ((c :: l).getLast?).getD x = (l.getLast?).getD c := by
  cases l with
  | nil => simp
  | cons b l' =>
      rw [List.getLast?_cons_cons]
      cases h : (b :: l').getLast? with
      | none => simp at h
      | some y => simp

theorem nonDecr_tail (a : Nat) (l : List Nat) (h : nonDecr (a :: l) = true) :
    nonDecr l = true := by
  cases l with
  | nil => rfl
  | cons b l' =>
      simp only [nonDecr, Bool.and_eq_true, decide_eq_true_eq] at h
      exact h.2

/-- Any `End` event the loop delivers carries `some (sha256 ..)` of the
    hasher's accumulated input when verification is on, and `none`
    otherwise. -/
theorem burnLoop_end_mem (verify : Bool) (total : Nat) (cap : Option Nat)
    (steps : List Step) :
    ∀ (count : Nat) (hashed : List Nat) (sent : Nat) (d : Option (List Nat)),
    Progress.End d ∈ (burnLoop verify total cap steps count hashed sent).events →
    ∃ h0, d = if verify then some (sha256 h0) else none := by
  induction steps with
  | nil => intro count hashed sent d h; simp [burnLoop] at h
  | cons s rest ih =>
    intro count hashed sent d h
    cases s with
    | readErr =>
        by_cases hs : sendOk cap sent
        · simp [burnLoop, hs] at h
        · simp [burnLoop, hs] at h
    | read data wRes syncRes =>
        by_cases hd : data.isEmpty
        · by_cases hs : sendOk cap sent
          · simp [burnLoop, hd, hs] at h
            exact ⟨hashed, h⟩
          · simp [burnLoop, hd, hs] at h
        · cases wRes with
          | none => simp [burnLoop, hd] at h
          | some k =>
            by_cases hsy : syncRes
            · by_cases hs : sendOk cap sent
              · simp only [burnLoop, hd, hsy, hs, Bool.not_true, Bool.false_eq_true,
                  ite_false, ite_true, List.mem_cons] at h
                rcases h with h1 | h2
                · simp at h1
                · exact ih _ _ _ _ h2
              · simp [burnLoop, hd, hsy, hs] at h
            · simp [burnLoop, hd, hsy] at h

/-- Over a faithful single-image read trace with verification on, a
    normally-ending loop's last event is `End` with the SHA-256 digest of
    the hasher's prior input followed by the whole image content. -/
theorem burnLoop_digest (total : Nat) (cap : Option Nat) (steps : List Step) :
    ∀ (content : List Nat) (count : Nat) (hashed : List Nat) (sent : Nat),
    isImageTrace steps content = true →
    (burnLoop true total cap steps count hashed sent).outcome = Outcome.normal →
    (burnLoop true total cap steps count hashed sent).events.getLast? =
      some (Progress.End (some (sha256 (hashed ++ content)))) := by
  induction steps with
  | nil => intro content count hashed sent ht hn; simp [isImageTrace] at ht
  | cons s rest ih =>
    intro content count hashed sent ht hn
    cases s with
    | readErr => simp [isImageTrace] at ht
    | read data wRes syncRes =>
        by_cases hd : data.isEmpty
        · simp only [isImageTrace, hd, if_true, ite_true] at ht
          have hc : content = [] := List.isEmpty_iff.mp ht
          by_cases hs : sendOk cap sent
          · simp [burnLoop, hd, hs, hc]
          · simp [burnLoop, hd, hs] at hn
        · simp only [isImageTrace, hd, Bool.false_eq_true, if_false, ite_false,
            Bool.and_eq_true, decide_eq_true_eq] at ht
          obtain ⟨⟨hlen, htake⟩, htr⟩ := ht
          cases wRes with
          | none => simp [burnLoop, hd] at hn
          | some k =>
            by_cases hsy : syncRes
            · by_cases hs : sendOk cap sent
              · simp only [burnLoop, hd, hsy, hs, Bool.not_true, Bool.false_eq_true,
                  ite_false, ite_true] at hn ⊢
                have ihr := ih (content.drop data.length) (count + data.length)
                  (hashed ++ data) (sent + 1) htr hn
                have harr : data ++ content.drop data.length = content := by
                  have h2 := List.take_append_drop data.length content
                  rw [htake] at h2
                  exact h2
                rw [List.append_assoc, harr] at ihr
                exact getLast?_cons_of_getLast? _ _ _ ihr
              · simp [burnLoop, hd, hsy, hs] at hn
            · simp [burnLoop, hd, hsy] at hn

/-- The `count` fields the loop reports are non-decreasing and bounded below
    by the entry `count`. -/
theorem burnLoop_counts_mono (verify : Bool) (total : Nat) (cap : Option Nat)
    (steps : List Step) :
    ∀ (count : Nat) (hashed : List Nat) (sent : Nat),
    nonDecr (count :: countsOf (burnLoop verify total cap steps count hashed sent).events)
      = true := by
  induction steps with
  | nil => intro count hashed sent; simp [burnLoop, countsOf, nonDecr]
  | cons s rest ih =>
    intro count hashed sent
    cases s with
    | readErr =>
        by_cases hs : sendOk cap sent
        · simp [burnLoop, hs, countsOf, nonDecr]
        · simp [burnLoop, hs, countsOf, nonDecr]
    | read data wRes syncRes =>
        by_cases hd : data.isEmpty
        · by_cases hs : sendOk cap sent
          · simp [burnLoop, hd, hs, countsOf, nonDecr]
          · simp [burnLoop, hd, hs, countsOf, nonDecr]
        · cases wRes with
          | none => simp [burnLoop, hd, countsOf, nonDecr]
          | some k =>
            by_cases hsy : syncRes
            · by_cases hs : sendOk cap sent
              · have ihr := ih (count + data.length)
                  (if verify then hashed ++ data else hashed) (sent + 1)
                simp only [burnLoop, hd, hsy, hs, Bool.not_true, Bool.false_eq_true,
                  ite_false, ite_true, countsOf, nonDecr, Bool.and_eq_true,
                  decide_eq_true_eq] at ihr ⊢
                exact ⟨Nat.le_add_right _ _, ihr⟩
              · simp [burnLoop, hd, hsy, hs, countsOf, nonDecr]
            · simp [burnLoop, hd, hsy, countsOf, nonDecr]

/-- Over a faithful single-image read trace, a normally-ending loop's last
    reported `count` is the entry `count` plus the image length. -/
theorem burnLoop_final_count (verify : Bool) (total : Nat) (cap : Option Nat)
    (steps : List Step) :
    ∀ (content : List Nat) (count : Nat) (hashed : List Nat) (sent : Nat),
    isImageTrace steps content = true →
    (burnLoop verify total cap steps count hashed sent).outcome = Outcome.normal →
    ((countsOf (burnLoop verify total cap steps count hashed sent).events).getLast?).getD count
      = count + content.length := by
  induction steps with
  | nil => intro content count hashed sent ht hn; simp [isImageTrace] at ht
  | cons s rest ih =>
    intro content count hashed sent ht hn
    cases s with
    | readErr => simp [isImageTrace] at ht
    | read data wRes syncRes =>
        by_cases hd : data.isEmpty
        · simp only [isImageTrace, hd, if_true, ite_true] at ht
          have hc : content = [] := List.isEmpty_iff.mp ht
          by_cases hs : sendOk cap sent
          · simp [burnLoop, hd, hs, hc, countsOf]
          · simp [burnLoop, hd, hs] at hn
        · simp only [isImageTrace, hd, Bool.false_eq_true, if_false, ite_false,
            Bool.and_eq_true, decide_eq_true_eq] at ht
          obtain ⟨⟨hlen, htake⟩, htr⟩ := ht
          have hdl : data.length ≤ content.length := by
            have : (content.take data.length).length = data.length := by rw [htake]
            simp only [List.length_take] at this
            omega
          cases wRes with
          | none => simp [burnLoop, hd] at hn
          | some k =>
            by_cases hsy : syncRes
            · by_cases hs : sendOk cap sent
              · simp only [burnLoop, hd, hsy, hs, Bool.not_true, Bool.false_eq_true,
                  ite_false, ite_true, countsOf] at hn ⊢
                have ihr := ih (content.drop data.length) (count + data.length)
                  (if verify then hashed ++ data else hashed) (sent + 1) htr hn
                rw [getLast?_getD_cons, ihr, List.length_drop]
                omega
              · simp [burnLoop, hd, hsy, hs] at hn
            · simp [burnLoop, hd, hsy] at hn

/-- A normally-ending run got past stat, both opens, and the `Start` send,
    and its events are `Start total` followed by the loop's events. -/
theorem burn_image_normal_eq (config : BurnConfig) (w : World)
    (h : (burn_image config w).outcome = Outcome.normal) :
    ∃ total, w.statResult = some total ∧
      (burnLoop (config.settings.contains BurnSetting.Verify) total w.sendCap
        w.steps 0 [] 1).outcome = Outcome.normal ∧
      (burn_image config w).events =
        Progress.Start total ::
          (burnLoop (config.settings.contains BurnSetting.Verify) total w.sendCap
            w.steps 0 [] 1).events := by
  cases hstat : w.statResult with
  | none => simp [burn_image, hstat] at h
  | some total =>
    by_cases hio : w.imageOpens
    · by_cases hdo : w.deviceOpens
      · by_cases hs : sendOk w.sendCap 0
        · refine ⟨total, rfl, ?_, ?_⟩
          · simpa [burn_image, hstat, hio, hdo, hs] using h
          · simp [burn_image, hstat, hio, hdo, hs]
        · simp [burn_image, hstat, hio, hdo, hs] at h
      · simp [burn_image, hstat, hio, hdo] at h
    · simp [burn_image, hstat, hio] at h

/-! ## Claims C2, C4, C5 -/

/-- C2: for every byte sequence `content` and every splitting of it into
    successive non-empty chunks (any chunk sizes up to the read-buffer
    bound), a run with verification enabled that completes normally delivers
    as its last event `End` carrying exactly `sha256 content` — the one-pass
    whole-sequence hash; the chunking does not affect the digest. -/
theorem C2_digest_chunking_independent (config : BurnConfig) (w : World)
    (content : List Nat)
    (hv : config.settings.contains BurnSetting.Verify = true)
    (ht : isImageTrace w.steps content = true)
    (hn : (burn_image config w).outcome = Outcome.normal) :
    (burn_image config w).events.getLast? =
      some (Progress.End (some (sha256 content))) := by
  obtain ⟨total, hstat, hln, hev⟩ := burn_image_normal_eq config w hn
  rw [hv] at hln
  have hdg := burnLoop_digest total w.sendCap w.steps content 0 [] 1 ht hln
  rw [List.nil_append] at hdg
  rw [hev, hv]
  exact getLast?_cons_of_getLast? _ _ _ hdg

/-- A 3-byte image delivered in chunks of 1 and 2 bytes, all I/O and sends
    succeeding. -/
def wABC : World :=
  ⟨some 3, true, true, none,
   [Step.read [97] (some 1) true, Step.read [98, 99] (some 2) true,
    Step.read [] none true]⟩

theorem C2_witness :
    (burn_image cfgVerify wABC).events.getLast? =
      some (Progress.End (some (sha256 [97, 98, 99]))) :=
  C2_digest_chunking_independent cfgVerify wABC [97, 98, 99] (by decide)
    (by decide) (by decide)

/-- C4: in a normally completing run, any delivered `End` event carries
    `some` 32-byte digest when `Verify` is among `config.settings`, and
    `none` when it is not. -/
theorem C4_end_digest_iff_verify (config : BurnConfig) (w : World)
    (d : Option (List Nat))
    (hn : (burn_image config w).outcome = Outcome.normal)
    (hmem : Progress.End d ∈ (burn_image config w).events) :
    (config.settings.contains BurnSetting.Verify = true →
      ∃ b, d = some b ∧ b.length = 32) ∧
    (config.settings.contains BurnSetting.Verify = false → d = none) := by
  obtain ⟨total, hstat, hln, hev⟩ := burn_image_normal_eq config w hn
  rw [hev, List.mem_cons] at hmem
  rcases hmem with h1 | h2
  · simp at h1
  · obtain ⟨h0, hd⟩ := burnLoop_end_mem (config.settings.contains BurnSetting.Verify)
      total w.sendCap w.steps 0 [] 1 d h2
    constructor
    · intro hv
      rw [hv] at hd
      simp only [ite_true] at hd
      exact ⟨sha256 h0, hd, sha256_length h0⟩
    · intro hv
      rw [hv] at hd
      simpa using hd


/-- A zero-byte image: the first read is already `Ok(0)`. -/
def wEmpty : World := ⟨some 0, true, true, none, [Step.read [] none true]⟩

theorem C4_witness :
    (cfg0.settings.contains BurnSetting.Verify = true →
      ∃ b, (none : Option (List Nat)) = some b ∧ b.length = 32) ∧
    (cfg0.settings.contains BurnSetting.Verify = false →
      (none : Option (List Nat)) = none) :=
  C4_end_digest_iff_verify cfg0 wEmpty none (by decide) (by decide)

/-- C5: in *every* run of `burn_image` — normal, aborted by a panic, or cut
    short by a read error — the `count` fields of the delivered `Progress`
    events are non-decreasing; and when the run reads a faithful trace of a
    fixed image whose stat reported the image's length and completes
    normally, the first event is `Start` with the image length as `total`
    and the final reported `count` equals that `total`. -/
theorem C5_counts_monotone_and_complete (config : BurnConfig) (w : World)
    (content : List Nat) :
    nonDecr (countsOf (burn_image config w).events) = true ∧
    (w.statResult = some content.length →
      isImageTrace w.steps content = true →
      (burn_image config w).outcome = Outcome.normal →
      (burn_image config w).events.head? = some (Progress.Start content.length) ∧
      ((countsOf (burn_image config w).events).getLast?).getD 0 = content.length) := by
  constructor
  · cases hstat : w.statResult with
    | none => simp [burn_image, hstat, countsOf, nonDecr]
    | some total =>
      by_cases hio : w.imageOpens
      · by_cases hdo : w.deviceOpens
        · by_cases hs : sendOk w.sendCap 0
          · have hm := burnLoop_counts_mono
              (config.settings.contains BurnSetting.Verify) total w.sendCap w.steps 0 [] 1
            simp only [burn_image, hstat, hio, hdo, hs, Bool.not_true, if_true,
              Bool.false_eq_true, ite_false, ite_true, countsOf]
            exact nonDecr_tail _ _ hm
          · simp [burn_image, hstat, hio, hdo, hs, countsOf, nonDecr]
        · simp [burn_image, hstat, hio, hdo, countsOf, nonDecr]
      · simp [burn_image, hstat, hio, countsOf, nonDecr]
  · intro hstat ht hn
    obtain ⟨total, hstat', hln, hev⟩ := burn_image_normal_eq config w hn
    have htot : total = content.length := by
      rw [hstat] at hstat'
      exact (Option.some_inj.mp hstat').symm
    subst htot
    rw [hev]
    refine ⟨rfl, ?_⟩
    have hf := burnLoop_final_count (config.settings.contains BurnSetting.Verify)
      content.length w.sendCap w.steps content 0 [] 1 ht hln
    simp only [countsOf]
    simpa using hf

/-- A 2-byte image read in two 1-byte chunks, all I/O and sends
    succeeding. -/
def wTwoChunk : World :=
  ⟨some 2, true, true, none,
   [Step.read [7] (some 1) true, Step.read [7] (some 1) true,
    Step.read [] none true]⟩

theorem C5_witness :
    (nonDecr (countsOf (burn_image cfg0 wTwoChunk).events) = true ∧
      nonDecr (countsOf (burn_image cfg0 wWriteFail).events) = true) ∧
    ((burn_image cfg0 wTwoChunk).events.head? = some (Progress.Start 2) ∧
      ((countsOf (burn_image cfg0 wTwoChunk).events).getLast?).getD 0 = 2) :=
  ⟨⟨(C5_counts_monotone_and_complete cfg0 wTwoChunk [7, 7]).1,
    (C5_counts_monotone_and_complete cfg0 wWriteFail [0, 1]).1⟩,
   (C5_counts_monotone_and_complete cfg0 wTwoChunk [7, 7]).2 rfl (by decide) (by decide)⟩

theorem C1_witness :
    goodShape (burn_image cfg0 wTwoChunk).events = true ∧
    prefixShape (burn_image cfg0 wClosed).events = true :=
  ⟨(C1_event_protocol cfg0 wTwoChunk).1 (by decide),
   (C1_event_protocol cfg0 wClosed).2 (by decide)⟩

end Acetylene
